import Mathlib

/-!
Verification of the polyline tessellation engine of `src/og/entity/Polyline.js`
(openglobus).  The mesh builders `appendLineData3v` / `appendLineDataLonLat`,
the incremental patcher `setPoint3v`, the buffer update loop `_update` and
`clear` are shallowly embedded below.  JavaScript numbers (IEEE doubles) are
modelled by `ℤ`: the only arithmetic the engine ever performs on a coordinate
is copying, the linear cap extrapolation `p0 + p0 - p1` and order comparisons,
all of which are ring/order-agnostic, and `ℤ` keeps every definition
kernel-executable so that witnesses evaluate by `decide`.  Appends
to the JS `out` arrays become functional list appends; in-place element
assignment becomes `List.set`.  Places where the source would crash on an
out-of-range access (`undefined.x`, `undefined.constructor`) are modelled by
`Option`: the builders return `none` exactly when the source throws.
-/

namespace Polyline

/-- Cartesian 3-vector, mirroring `og.math.Vec3` (fields `x`, `y`, `z`). -/
structure Vec3 where
  x : ℤ
  y : ℤ
  z : ℤ
deriving DecidableEq, Repr

/-- Geodetic coordinate, mirroring `og.LonLat` (fields `lon`, `lat`, `height`). -/
structure LonLat where
  lon : ℤ
  lat : ℤ
  height : ℤ
deriving DecidableEq, Repr

/-- A corner of a geodetic extent (only `lon` and `lat` are ever read). -/
structure Corner where
  lon : ℤ
  lat : ℤ
deriving DecidableEq, Repr

/-- Geodetic bounding box, mirroring `og.Extent`. -/
structure Extent where
  southWest : Corner
  northEast : Corner
deriving DecidableEq, Repr

/-- The two coordinate transforms consumed from `og.Ellipsoid`
(opaque pure functions, per the spec's external-interface contract). -/
structure Ellipsoid where
  cartesianToLonLat : Vec3 → LonLat
  lonLatToCartesian : LonLat → Vec3

def zero3 : Vec3 := ⟨0, 0, 0⟩

def zeroLL : LonLat := ⟨0, 0, 0⟩

/-- The mirror extrapolation `new Vec3(p0.x + p0.x - p1.x, ...)` used for the
synthetic cap of an open segment (equals `2·p0 − p1` componentwise). -/
def extrap (p0 p1 : Vec3) : Vec3 :=
  ⟨p0.x + p0.x - p1.x, p0.y + p0.y - p1.y, p0.z + p0.z - p1.z⟩

/-- `outVertices.push(p.x, p.y, p.z, ...)` repeated four times: the 12-float
block every logical point occupies in the vertex array. -/
def dupe12 (p : Vec3) : List ℤ :=
  [p.x, p.y, p.z, p.x, p.y, p.z, p.x, p.y, p.z, p.x, p.y, p.z]

/-- `outOrders.push(1, -1, 2, -2)`. -/
def ordQuad : List ℤ := [1, -1, 2, -2]

/-- The extent update performed per visited geodetic point: four independent
comparisons against the running south-west / north-east corners
(`if (lonLat.lon < outExtent.southWest.lon) ...` and the three analogues;
`setPoint3v` performs the same four comparisons in a different order,
which yields the same record). -/
def extUpd (e : Extent) (p : LonLat) : Extent :=
  { southWest :=
      { lon := if p.lon < e.southWest.lon then p.lon else e.southWest.lon
      , lat := if p.lat < e.southWest.lat then p.lat else e.southWest.lat }
  , northEast :=
      { lon := if p.lon > e.northEast.lon then p.lon else e.northEast.lon
      , lat := if p.lat > e.northEast.lat then p.lat else e.northEast.lat } }

def extFold (e : Extent) (pts : List LonLat) : Extent :=
  pts.foldl extUpd e

/-- `outExtent.southWest.set(180, 90); outExtent.northEast.set(-180, -90)`. -/
def extentReset : Extent :=
  { southWest := ⟨180, 90⟩, northEast := ⟨-180, -90⟩ }

/-- The accumulator threaded through one segment of a builder: the flat
output arrays, the running vertex-group index, the extent, and the current
segment's three coordinate rows. -/
structure Acc where
  v : List ℤ
  o : List ℤ
  ix : List ℕ
  i : ℕ
  e : Extent
  ll : List LonLat
  p3 : List Vec3
  mc : List LonLat
deriving Repr

/-- Whole-builder output state: mirrors the `out*` parameters of the static
builders (`outVertices`, `outOrders`, `outIndexes`, the three path stores,
`outExtent`) plus the `index` counter. -/
structure BOut where
  vertices : List ℤ
  orders : List ℤ
  indexes : List ℕ
  pathLonLat : List (List LonLat)
  path3v : List (List Vec3)
  pathMerc : List (List LonLat)
  extent : Extent
  index : ℕ
deriving Repr

/-- Fresh output arrays: the state of a polyline before any build. -/
def emptyOut : BOut :=
  { vertices := [], orders := [], indexes := [], pathLonLat := [], path3v := []
  , pathMerc := [], extent := extentReset, index := 0 }

/-- Head-cap point of one segment of `appendLineData3v`:
closed → `path[path.length - 1]`; open → `2·path[0] − path[1]`.
`none` models the TypeError the source throws on the corresponding
out-of-range access (`undefined.constructor`). -/
def capBefore (isClosed : Bool) (path : List Vec3) : Option Vec3 :=
  if isClosed then
    if path.length = 0 then none
    else some (path.getD (path.length - 1) zero3)
  else
    if path.length < 2 then none
    else some (extrap (path.getD 0 zero3) (path.getD 1 zero3))

/-- Tail-cap point of one segment of `appendLineData3v`:
closed → `path[0]`; open → `2·path[len-1] − path[len-2]`. -/
def capAfter (isClosed : Bool) (path : List Vec3) : Option Vec3 :=
  if isClosed then
    if path.length = 0 then none
    else some (path.getD 0 zero3)
  else
    if path.length < 2 then none
    else some (extrap (path.getD (path.length - 1) zero3) (path.getD (path.length - 2) zero3))

/-- The inner point loop of `appendLineData3v`: per point, when an ellipsoid
is supplied push the back-projected geodetic / Mercator values and update the
extent, then push the duplicated vertex block, the order quadruple and
`index++, index++, index++, index++`. -/
def pts3v (fm : LonLat → LonLat) (oe : Option Ellipsoid) :
    List Vec3 → Acc → Acc
  | [], a => a
  | cur :: rest, a =>
    let a1 :=
      match oe with
      | some el =>
        let lonLat := el.cartesianToLonLat cur
        { a with ll := a.ll ++ [lonLat], p3 := a.p3 ++ [cur]
               , mc := a.mc ++ [fm lonLat], e := extUpd a.e lonLat }
      | none => a
    pts3v fm oe rest
      { a1 with v := a1.v ++ dupe12 cur, o := a1.o ++ ordQuad
              , ix := a1.ix ++ [a1.i, a1.i + 1, a1.i + 2, a1.i + 3]
              , i := a1.i + 4 }

/-- One segment of `appendLineData3v`: head cap block, point loop, tail index
quadruple (`startIndex, startIndex+1, startIndex+1, startIndex+1` when closed,
`index-1` four times when open), tail cap block. -/
def seg3v (fm : LonLat → LonLat) (oe : Option Ellipsoid) (isClosed : Bool)
    (path : List Vec3) (st : BOut) : Option BOut :=
  match capBefore isClosed path, capAfter isClosed path with
  | some bef, some aft =>
    let startIndex := st.index
    let a0 : Acc :=
      { v := st.vertices ++ dupe12 bef, o := st.orders ++ ordQuad
      , ix := st.indexes, i := st.index, e := st.extent
      , ll := [], p3 := [], mc := [] }
    let a := pts3v fm oe path a0
    let tail : List ℕ :=
      if isClosed then [startIndex, startIndex + 1, startIndex + 1, startIndex + 1]
      else [a.i - 1, a.i - 1, a.i - 1, a.i - 1]
    some
      { vertices := a.v ++ dupe12 aft
      , orders := a.o ++ ordQuad
      , indexes := a.ix ++ tail
      , pathLonLat := st.pathLonLat ++ [a.ll]
      , path3v := st.path3v ++ [a.p3]
      , pathMerc := st.pathMerc ++ [a.mc]
      , extent := a.e
      , index := a.i }
  | _, _ => none

/-- The segment loop of `appendLineData3v`; between two segments
(`j < path3v.length - 1`) the seam `index += 8; outIndexes.push(index, index)`
is emitted. -/
def segs3v (fm : LonLat → LonLat) (oe : Option Ellipsoid) (isClosed : Bool) :
    List (List Vec3) → BOut → Option BOut
  | [], st => some st
  | path :: rest, st =>
    (seg3v fm oe isClosed path st).bind fun st1 =>
      match rest with
      | [] => some st1
      | _ :: _ =>
        segs3v fm oe isClosed rest
          { st1 with index := st1.index + 8
                   , indexes := st1.indexes ++ [st1.index + 8, st1.index + 8] }

/-- `Polyline.appendLineData3v`.  Resets the extent, seeds the index array
(`0, 0` on a fresh build; on a non-empty one the source reads
`outIndexes[outIndexes.length - 5] + 9` — the model clamps the subscript,
the source yields NaN when `0 < length < 5`; every theorem below starts from
`emptyOut` where that branch is not taken), then runs the segment loop. -/
def appendLineData3v (fm : LonLat → LonLat) (oe : Option Ellipsoid)
    (path3v : List (List Vec3)) (isClosed : Bool) (out : BOut) : Option BOut :=
  let out0 := { out with extent := extentReset }
  let seed :=
    if 0 < out0.indexes.length then
      let idx := out0.indexes.getD (out0.indexes.length - 5) 0 + 9
      { out0 with indexes := out0.indexes ++ [idx, idx], index := idx }
    else
      { out0 with indexes := out0.indexes ++ [0, 0], index := 0 }
  segs3v fm oe isClosed path3v seed

/-- Head-cap point of one segment of `appendLineDataLonLat`:
closed → `lonLatToCartesian(path[path.length - 1])`;
open → `2·lonLatToCartesian(path[0]) − lonLatToCartesian(path[1])`.
`none` models the source feeding `undefined` into the ellipsoid. -/
def capBeforeLL (el : Ellipsoid) (isClosed : Bool) (path : List LonLat) : Option Vec3 :=
  if isClosed then
    if path.length = 0 then none
    else some (el.lonLatToCartesian (path.getD (path.length - 1) zeroLL))
  else
    if path.length < 2 then none
    else some (extrap (el.lonLatToCartesian (path.getD 0 zeroLL))
                      (el.lonLatToCartesian (path.getD 1 zeroLL)))

/-- Tail-cap point of one segment of `appendLineDataLonLat`. -/
def capAfterLL (el : Ellipsoid) (isClosed : Bool) (path : List LonLat) : Option Vec3 :=
  if isClosed then
    if path.length = 0 then none
    else some (el.lonLatToCartesian (path.getD 0 zeroLL))
  else
    if path.length < 2 then none
    else some (extrap (el.lonLatToCartesian (path.getD (path.length - 1) zeroLL))
                      (el.lonLatToCartesian (path.getD (path.length - 2) zeroLL)))

/-- The inner point loop of `appendLineDataLonLat`: per point, convert to
Cartesian, push the three coordinate rows, the duplicated vertex block, the
order quadruple and the four indexes, then update the extent from the
geodetic value directly. -/
def ptsLL (fm : LonLat → LonLat) (el : Ellipsoid) :
    List LonLat → Acc → Acc
  | [], a => a
  | cur :: rest, a =>
    let cartesian := el.lonLatToCartesian cur
    ptsLL fm el rest
      { a with p3 := a.p3 ++ [cartesian], ll := a.ll ++ [cur]
             , mc := a.mc ++ [fm cur]
             , v := a.v ++ dupe12 cartesian, o := a.o ++ ordQuad
             , ix := a.ix ++ [a.i, a.i + 1, a.i + 2, a.i + 3]
             , i := a.i + 4
             , e := extUpd a.e cur }

/-- One segment of `appendLineDataLonLat` (same block structure as `seg3v`). -/
def segLL (fm : LonLat → LonLat) (el : Ellipsoid) (isClosed : Bool)
    (path : List LonLat) (st : BOut) : Option BOut :=
  match capBeforeLL el isClosed path, capAfterLL el isClosed path with
  | some bef, some aft =>
    let startIndex := st.index
    let a0 : Acc :=
      { v := st.vertices ++ dupe12 bef, o := st.orders ++ ordQuad
      , ix := st.indexes, i := st.index, e := st.extent
      , ll := [], p3 := [], mc := [] }
    let a := ptsLL fm el path a0
    let tail : List ℕ :=
      if isClosed then [startIndex, startIndex + 1, startIndex + 1, startIndex + 1]
      else [a.i - 1, a.i - 1, a.i - 1, a.i - 1]
    some
      { vertices := a.v ++ dupe12 aft
      , orders := a.o ++ ordQuad
      , indexes := a.ix ++ tail
      , pathLonLat := st.pathLonLat ++ [a.ll]
      , path3v := st.path3v ++ [a.p3]
      , pathMerc := st.pathMerc ++ [a.mc]
      , extent := a.e
      , index := a.i }
  | _, _ => none

/-- The segment loop of `appendLineDataLonLat` with the same seam rule. -/
def segsLL (fm : LonLat → LonLat) (el : Ellipsoid) (isClosed : Bool) :
    List (List LonLat) → BOut → Option BOut
  | [], st => some st
  | path :: rest, st =>
    (segLL fm el isClosed path st).bind fun st1 =>
      match rest with
      | [] => some st1
      | _ :: _ =>
        segsLL fm el isClosed rest
          { st1 with index := st1.index + 8
                   , indexes := st1.indexes ++ [st1.index + 8, st1.index + 8] }

/-- `Polyline.appendLineDataLonLat` (same reset and index seeding as the
Cartesian builder). -/
def appendLineDataLonLat (fm : LonLat → LonLat) (el : Ellipsoid)
    (pathLonLat : List (List LonLat)) (isClosed : Bool) (out : BOut) : Option BOut :=
  let out0 := { out with extent := extentReset }
  let seed :=
    if 0 < out0.indexes.length then
      let idx := out0.indexes.getD (out0.indexes.length - 5) 0 + 9
      { out0 with indexes := out0.indexes ++ [idx, idx], index := idx }
    else
      { out0 with indexes := out0.indexes ++ [0, 0], index := 0 }
  segsLL fm el isClosed pathLonLat seed

/-- Per-point index pushes for `n` points starting at group index `i`. -/
def idxRun : ℕ → ℕ → List ℕ
  | _, 0 => []
  | i, n + 1 => i :: (i + 1) :: (i + 2) :: (i + 3) :: idxRun (i + 4) n

/-- Tail index quadruple of a segment whose points started at `i0`. -/
def segTail (isClosed : Bool) (i0 n : ℕ) : List ℕ :=
  if isClosed then [i0, i0 + 1, i0 + 1, i0 + 1]
  else [i0 + 4 * n - 1, i0 + 4 * n - 1, i0 + 4 * n - 1, i0 + 4 * n - 1]

/-- Index stream contributed by a list of segment lengths starting at `i0`,
with the `+8` seam pair between consecutive segments. -/
def idxSegs (isClosed : Bool) : List ℕ → ℕ → List ℕ
  | [], _ => []
  | [n], i0 => idxRun i0 n ++ segTail isClosed i0 n
  | n :: r :: rs, i0 =>
    idxRun i0 n ++ segTail isClosed i0 n ++
      (i0 + 4 * n + 8) :: (i0 + 4 * n + 8) :: idxSegs isClosed (r :: rs) (i0 + 4 * n + 8)

/-- Final value of the `index` counter after the segment loop. -/
def idxEnd : List ℕ → ℕ → ℕ
  | [], i0 => i0
  | [n], i0 => i0 + 4 * n
  | n :: r :: rs, i0 => idxEnd (r :: rs) (i0 + 4 * n + 8)

/-- Order stream of one segment of `n` points: the cycle `1, -1, 2, -2`
repeated `n + 2` times (head cap, points, tail cap). -/
def ordsOfSeg (n : ℕ) : List ℤ := (List.replicate (n + 2) ordQuad).flatten

/-- Order stream of a whole multi-segment build. -/
def ordersSegs (lens : List ℕ) : List ℤ := (lens.map ordsOfSeg).flatten

/-- Vertex stream of one segment: head-cap block, point blocks, tail-cap
block. -/
def segVerts (isClosed : Bool) (path : List Vec3) : List ℤ :=
  dupe12 ((capBefore isClosed path).getD zero3) ++ (path.map dupe12).flatten ++
    dupe12 ((capAfter isClosed path).getD zero3)

/-- Vertex stream of a whole multi-segment build from Cartesian input. -/
def vertsSegs (isClosed : Bool) (paths : List (List Vec3)) : List ℤ :=
  (paths.map (segVerts isClosed)).flatten

/-- The length precondition under which a segment is processed without the
source crashing: a closed segment needs one point (`path[path.length-1]`),
an open one two (the cap extrapolation reads `path[0]` and `path[1]`). -/
def ShapeOk (isClosed : Bool) (n : ℕ) : Prop :=
  if isClosed then 1 ≤ n else 2 ≤ n

instance (isClosed : Bool) (n : ℕ) : Decidable (ShapeOk isClosed n) := by
  unfold ShapeOk; infer_instance

/-- All segments of a shape satisfy `ShapeOk`. -/
def ValidShape (isClosed : Bool) (lens : List ℕ) : Prop :=
  ∀ n ∈ lens, ShapeOk isClosed n

instance (isClosed : Bool) (lens : List ℕ) : Decidable (ValidShape isClosed lens) := by
  unfold ValidShape; infer_instance

/-- Concrete stand-in for the opaque `forwardMercator` projection, used to
instantiate witnesses. -/
def fmEx : LonLat → LonLat := fun l => l

/-- Concrete stand-in ellipsoid (identity-style transforms), used to
instantiate witnesses. -/
def elEx : Ellipsoid :=
  { cartesianToLonLat := fun v => ⟨v.x, v.y, v.z⟩
  , lonLatToCartesian := fun l => ⟨l.lon, l.lat, l.height⟩ }

/-- `VERTICES_BUFFER = 0` (module constant of Polyline.js). -/
def VERTICES_BUFFER : ℕ := 0

/-- `INDEX_BUFFER = 1` (module constant of Polyline.js). -/
def INDEX_BUFFER : ℕ := 1

/-- The mutable state of one `Polyline` instance that the claims touch:
the three coordinate stores, the CPU-side mesh arrays, the extent, the two
dirty flags (`_changedBuffers[VERTICES_BUFFER]` / `_changedBuffers[INDEX_BUFFER]`),
the closed flag, attachment (`_renderNode`, carrying its optional ellipsoid),
and the three GPU buffer handles (`none` = the JS `null`). -/
structure Poly where
  path3v : List (List Vec3)
  pathLonLat : List (List LonLat)
  pathLonLatMerc : List (List LonLat)
  vertices : List ℤ
  orders : List ℤ
  indexes : List ℕ
  extent : Extent
  changedVerticesBuffer : Bool
  changedIndexBuffer : Bool
  closedLine : Bool
  renderNode : Option (Option Ellipsoid)
  verticesBuffer : Option ℕ
  ordersBuffer : Option ℕ
  indexesBuffer : Option ℕ

/-- `_deleteBuffers`: only when attached (`if (this._renderNode)`) the three
GL buffers are deleted and the handles nulled. -/
def deleteBuffers (p : Poly) : Poly :=
  if p.renderNode.isSome then
    { p with verticesBuffer := none, ordersBuffer := none, indexesBuffer := none }
  else p

/-- `clear()`: empties `_vertices`, `_orders`, `_indexes` (truncate then
reassign — net effect: empty) and calls `_deleteBuffers()`.  The three
coordinate stores are *not* touched. -/
def clear (p : Poly) : Poly :=
  deleteBuffers { p with vertices := [], orders := [], indexes := [] }

/-- The body of `_update()`: `var i = flags.length; while (i--) { if
(flags[i]) { callbacks[i].call(this); flags[i] = false } }` — the loop walks
the dirty-flag array from the highest slot down.  The first component of the
result is the trace of callback slots invoked, in order
(`0 = _createVerticesBuffer`, `1 = _createIndexBuffer` per the constructor's
`_buffersUpdateCallbacks` table); the second is the final flag array. -/
def runUpdate (flags : List Bool) : List ℕ × List Bool :=
  ((List.range flags.length).reverse).foldl
    (fun acc i => if acc.2.getD i false then (acc.1 ++ [i], acc.2.set i false) else acc)
    ([], flags)

/-- `_update()` runs the loop only when the polyline is attached
(`if (this._renderNode)`). -/
def update (renderNodeAttached : Bool) (flags : List Bool) : List ℕ × List Bool :=
  if renderNodeAttached then runUpdate flags else ([], flags)

/-- Concrete polyline state used by the C9 counterexample. -/
def pEx9 : Poly :=
  { path3v := [[⟨1,1,1⟩]], pathLonLat := [[⟨2,2,2⟩]], pathLonLatMerc := [[⟨3,3,3⟩]]
  , vertices := [0], orders := [1], indexes := [0]
  , extent := extentReset
  , changedVerticesBuffer := false, changedIndexBuffer := false
  , closedLine := false, renderNode := some none
  , verticesBuffer := some 1, ordersBuffer := some 2, indexesBuffer := some 3 }

/-- The flat-buffer offset of a segment's data in `setPoint3v`:
`for (i = 0; i < segmentIndex; i++) kk += path3v[i].length * 12 + 24`. -/
def priorOffset (paths : List (List Vec3)) (segmentIndex : ℕ) : ℕ :=
  ((paths.take segmentIndex).map (fun s => s.length * 12 + 24)).sum

/-- Twelve consecutive element assignments `v[k] = …; v[k+1] = …; …`
(in-range in every state the claims quantify over; JS would grow the array
on an out-of-range write, which never happens there). -/
def writeBlock : List ℤ → ℕ → List ℤ → List ℤ
  | v, _, [] => v
  | v, k, x :: xs => writeBlock (v.set k x) (k + 1) xs

/-- `store[i][j] = x` on a nested array. -/
def updNested {α : Type} (ps : List (List α)) (i j : ℕ) (x : α) : List (List α) :=
  ps.set i ((ps.getD i []).set j x)

/-- The from-scratch extent recomputation inside `setPoint3v`: reset to the
canonical bounds, then the double loop over all stored geodetic rows applies
the same four comparisons as `extUpd` to every point — i.e. a fold over the
flattened store. -/
def setPointExtentScan (l : List (List LonLat)) : Extent :=
  extFold extentReset l.flatten

/-- Total vertex-array length of a consistently built polyline:
`Σ 12·(segment_length + 2)`. -/
def vertLen (paths : List (List Vec3)) : ℕ :=
  (paths.map (fun s => 12 * (s.length + 2))).sum

/-- `Polyline.prototype.setPoint3v(coordinates, index, segmentIndex,
forceLonLat)`, translated statement by statement.  When detached
(`_renderNode` null) only the Cartesian store is written.  When attached:
compute `kk`, write the new coordinate into the stored path, rewrite the
before-cap block when `index` is 0 or 1 (closed: wrap to the last point,
open: mirror extrapolation — the same formulas as the full build), update the
geodetic/Mercator entries and rescan the extent when `!forceLonLat` and an
ellipsoid is present, overwrite the point's own 12-entry block at
`kk + index*12 + 12`, rewrite the after-cap block when `index` is the last or
second-to-last point, and finally set only the vertex-buffer dirty flag. -/
def setPoint3v (fm : LonLat → LonLat) (p : Poly) (coordinates : Vec3)
    (index segmentIndex : ℕ) (forceLonLat : Bool) : Poly :=
  match p.renderNode with
  | some oe =>
    let kk := priorOffset p.path3v segmentIndex
    let path := (p.path3v.getD segmentIndex []).set index coordinates
    let path3v1 := p.path3v.set segmentIndex path
    let v := p.vertices
    let v :=
      if index = 0 ∨ index = 1 then
        let last :=
          if p.closedLine then path.getD (path.length - 1) zero3
          else extrap (path.getD 0 zero3) (path.getD 1 zero3)
        writeBlock v kk (dupe12 last)
      else v
    let lme :=
      match forceLonLat, oe with
      | false, some el =>
        let lonLat := el.cartesianToLonLat coordinates
        let l := updNested p.pathLonLat segmentIndex index lonLat
        let m := updNested p.pathLonLatMerc segmentIndex index (fm lonLat)
        (l, m, setPointExtentScan l)
      | _, _ => (p.pathLonLat, p.pathLonLatMerc, p.extent)
    let v := writeBlock v (kk + index * 12 + 12) (dupe12 coordinates)
    let v :=
      if index = path.length - 1 ∨ index = path.length - 2 then
        let first :=
          if p.closedLine then path.getD 0 zero3
          else extrap (path.getD (path.length - 1) zero3) (path.getD (path.length - 2) zero3)
        writeBlock v (kk + path.length * 12 + 12) (dupe12 first)
      else v
    { p with path3v := path3v1, pathLonLat := lme.1, pathLonLatMerc := lme.2.1
           , extent := lme.2.2, vertices := v, changedVerticesBuffer := true }
  | none =>
    { p with path3v := updNested p.path3v segmentIndex index coordinates }

/-- Splicing a block over a list: the take/append/drop normal form of a run
of consecutive element assignments. -/
def splice (v : List ℤ) (k : ℕ) (b : List ℤ) : List ℤ :=
  v.take k ++ b ++ v.drop (k + b.length)

/-- Concrete attached polyline state (the built scenario path, 60 vertex
slots) used to instantiate the C2 theorem. -/
def pEx2 : Poly :=
  { path3v := [[⟨0,0,0⟩, ⟨1,0,0⟩, ⟨1,1,0⟩]]
  , pathLonLat := [], pathLonLatMerc := []
  , vertices := List.replicate 60 0
  , orders := [], indexes := [0, 0, 0, 1, 2, 3, 4, 5, 6, 7, 8, 9, 10, 11, 11, 11, 11, 11]
  , extent := extentReset
  , changedVerticesBuffer := false, changedIndexBuffer := false
  , closedLine := false
  , renderNode := some none
  , verticesBuffer := none, ordersBuffer := none, indexesBuffer := none }

/-- The running-minimum fold performed on one extent component:
`if (x < acc) acc = x` over a list of values. -/
def minFold (a : ℤ) (l : List ℤ) : ℤ :=
  l.foldl (fun acc x => if x < acc then x else acc) a

/-- The running-maximum fold performed on one extent component. -/
def maxFold (a : ℤ) (l : List ℤ) : ℤ :=
  l.foldl (fun acc x => if x > acc then x else acc) a

/-- Canonical geodetic range: the extent accumulator starts from
`southWest=(180,90)`, `northEast=(-180,-90)`, so exactness needs every point
inside these bounds (which `cartesianToLonLat` guarantees for real
ellipsoids). -/
def InRange (p : LonLat) : Prop :=
  -180 ≤ p.lon ∧ p.lon ≤ 180 ∧ -90 ≤ p.lat ∧ p.lat ≤ 90

instance (p : LonLat) : Decidable (InRange p) := by
  unfold InRange; infer_instance

/-- `m` is the exact minimum of the list: attained and a lower bound. -/
def IsMinOf (m : ℤ) (l : List ℤ) : Prop := m ∈ l ∧ ∀ x ∈ l, m ≤ x

instance (m : ℤ) (l : List ℤ) : Decidable (IsMinOf m l) := by
  unfold IsMinOf; infer_instance

/-- `m` is the exact maximum of the list: attained and an upper bound. -/
def IsMaxOf (m : ℤ) (l : List ℤ) : Prop := m ∈ l ∧ ∀ x ∈ l, x ≤ m

instance (m : ℤ) (l : List ℤ) : Decidable (IsMaxOf m l) := by
  unfold IsMaxOf; infer_instance

/-- The extent is exactly the bounding box of the given geodetic points. -/
def ExtentExact (e : Extent) (pts : List LonLat) : Prop :=
  IsMinOf e.southWest.lon (pts.map (fun p => p.lon)) ∧
  IsMinOf e.southWest.lat (pts.map (fun p => p.lat)) ∧
  IsMaxOf e.northEast.lon (pts.map (fun p => p.lon)) ∧
  IsMaxOf e.northEast.lat (pts.map (fun p => p.lat))

instance (e : Extent) (pts : List LonLat) : Decidable (ExtentExact e pts) := by
  unfold ExtentExact; infer_instance

/-! ## Lemmas and claim theorems -/

lemma ordsOfSeg_eq (n : ℕ) :
    ordsOfSeg n = ordQuad ++ (List.replicate n ordQuad).flatten ++ ordQuad := by
  have h : n + 2 = (n + 1) + 1 := rfl
  rw [ordsOfSeg, h, List.replicate_succ' (n + 1) ordQuad, List.replicate_succ]
  simp

lemma capBefore_isSome (isClosed : Bool) (path : List Vec3)
    (h : ShapeOk isClosed path.length) : ∃ b, capBefore isClosed path = some b := by
  unfold ShapeOk at h
  unfold capBefore
  cases isClosed <;>
    simp only [if_true, if_false, Bool.false_eq_true, ite_false, ite_true] at h ⊢
  · rw [if_neg (by omega)]; exact ⟨_, rfl⟩
  · rw [if_neg (by omega)]; exact ⟨_, rfl⟩

lemma capAfter_isSome (isClosed : Bool) (path : List Vec3)
    (h : ShapeOk isClosed path.length) : ∃ b, capAfter isClosed path = some b := by
  unfold ShapeOk at h
  unfold capAfter
  cases isClosed <;>
    simp only [if_true, if_false, Bool.false_eq_true, ite_false, ite_true] at h ⊢
  · rw [if_neg (by omega)]; exact ⟨_, rfl⟩
  · rw [if_neg (by omega)]; exact ⟨_, rfl⟩

lemma pts3v_spec_none (fm : LonLat → LonLat) (pts : List Vec3) :
    ∀ a : Acc, pts3v fm none pts a =
      { a with v := a.v ++ (pts.map dupe12).flatten
             , o := a.o ++ (List.replicate pts.length ordQuad).flatten
             , ix := a.ix ++ idxRun a.i pts.length
             , i := a.i + 4 * pts.length } := by
  induction pts with
  | nil => intro a; simp [pts3v, idxRun]
  | cons cur rest ih =>
    intro a
    rw [pts3v, ih]
    simp [idxRun, List.replicate_succ, Nat.mul_succ, Nat.mul_add]
    omega

lemma pts3v_spec_some (fm : LonLat → LonLat) (el : Ellipsoid) (pts : List Vec3) :
    ∀ a : Acc, pts3v fm (some el) pts a =
      { v := a.v ++ (pts.map dupe12).flatten
      , o := a.o ++ (List.replicate pts.length ordQuad).flatten
      , ix := a.ix ++ idxRun a.i pts.length
      , i := a.i + 4 * pts.length
      , e := extFold a.e (pts.map el.cartesianToLonLat)
      , ll := a.ll ++ pts.map el.cartesianToLonLat
      , p3 := a.p3 ++ pts
      , mc := a.mc ++ pts.map (fun p => fm (el.cartesianToLonLat p)) } := by
  induction pts with
  | nil => intro a; simp [pts3v, idxRun, extFold]
  | cons cur rest ih =>
    intro a
    rw [pts3v, ih]
    simp [idxRun, List.replicate_succ, Nat.mul_succ, Nat.mul_add, extFold]
    omega

lemma ptsLL_spec (fm : LonLat → LonLat) (el : Ellipsoid) (pts : List LonLat) :
    ∀ a : Acc, ptsLL fm el pts a =
      { v := a.v ++ ((pts.map el.lonLatToCartesian).map dupe12).flatten
      , o := a.o ++ (List.replicate pts.length ordQuad).flatten
      , ix := a.ix ++ idxRun a.i pts.length
      , i := a.i + 4 * pts.length
      , e := extFold a.e pts
      , ll := a.ll ++ pts
      , p3 := a.p3 ++ pts.map el.lonLatToCartesian
      , mc := a.mc ++ pts.map fm } := by
  induction pts with
  | nil => intro a; simp [ptsLL, idxRun, extFold]
  | cons cur rest ih =>
    intro a
    rw [ptsLL, ih]
    simp [idxRun, List.replicate_succ, Nat.mul_succ, Nat.mul_add, extFold]
    omega

lemma seg3v_spec_none (fm : LonLat → LonLat) (isClosed : Bool) (path : List Vec3)
    (st : BOut) (h : ShapeOk isClosed path.length) :
    seg3v fm none isClosed path st = some
      { vertices := st.vertices ++ segVerts isClosed path
      , orders := st.orders ++ ordsOfSeg path.length
      , indexes := st.indexes ++ idxRun st.index path.length ++
          segTail isClosed st.index path.length
      , pathLonLat := st.pathLonLat ++ [[]]
      , path3v := st.path3v ++ [[]]
      , pathMerc := st.pathMerc ++ [[]]
      , extent := st.extent
      , index := st.index + 4 * path.length } := by
  obtain ⟨bef, hb⟩ := capBefore_isSome isClosed path h
  obtain ⟨aft, ha⟩ := capAfter_isSome isClosed path h
  unfold seg3v
  rw [hb, ha]
  dsimp only
  rw [pts3v_spec_none]
  simp [segVerts, segTail, ordsOfSeg_eq, hb, ha]

lemma getD_map_lt {α β : Type} (f : α → β) (l : List α) (k : ℕ) (d : β) (d' : α)
    (h : k < l.length) : (l.map f).getD k d = f (l.getD k d') := by
  rw [List.getD_eq_getElem?_getD, List.getD_eq_getElem?_getD, List.getElem?_map,
    List.getElem?_eq_getElem h]
  rfl

lemma capBeforeLL_eq (el : Ellipsoid) (isClosed : Bool) (path : List LonLat) :
    capBeforeLL el isClosed path = capBefore isClosed (path.map el.lonLatToCartesian) := by
  unfold capBeforeLL capBefore
  cases isClosed <;> simp only [if_true, if_false, Bool.false_eq_true, ite_false, ite_true,
    List.length_map]
  · by_cases h2 : path.length < 2
    · rw [if_pos h2, if_pos h2]
    · rw [if_neg h2, if_neg h2,
        getD_map_lt el.lonLatToCartesian path 0 zero3 zeroLL (by omega),
        getD_map_lt el.lonLatToCartesian path 1 zero3 zeroLL (by omega)]
  · by_cases h0 : path.length = 0
    · rw [if_pos h0, if_pos h0]
    · rw [if_neg h0, if_neg h0,
        getD_map_lt el.lonLatToCartesian path (path.length - 1) zero3 zeroLL (by omega)]

lemma capAfterLL_eq (el : Ellipsoid) (isClosed : Bool) (path : List LonLat) :
    capAfterLL el isClosed path = capAfter isClosed (path.map el.lonLatToCartesian) := by
  unfold capAfterLL capAfter
  cases isClosed <;> simp only [if_true, if_false, Bool.false_eq_true, ite_false, ite_true,
    List.length_map]
  · by_cases h2 : path.length < 2
    · rw [if_pos h2, if_pos h2]
    · rw [if_neg h2, if_neg h2,
        getD_map_lt el.lonLatToCartesian path (path.length - 1) zero3 zeroLL (by omega),
        getD_map_lt el.lonLatToCartesian path (path.length - 2) zero3 zeroLL (by omega)]
  · by_cases h0 : path.length = 0
    · rw [if_pos h0, if_pos h0]
    · rw [if_neg h0, if_neg h0,
        getD_map_lt el.lonLatToCartesian path 0 zero3 zeroLL (by omega)]

lemma seg3v_spec_some (fm : LonLat → LonLat) (el : Ellipsoid) (isClosed : Bool)
    (path : List Vec3) (st : BOut) (h : ShapeOk isClosed path.length) :
    seg3v fm (some el) isClosed path st = some
      { vertices := st.vertices ++ segVerts isClosed path
      , orders := st.orders ++ ordsOfSeg path.length
      , indexes := st.indexes ++ idxRun st.index path.length ++
          segTail isClosed st.index path.length
      , pathLonLat := st.pathLonLat ++ [path.map el.cartesianToLonLat]
      , path3v := st.path3v ++ [path]
      , pathMerc := st.pathMerc ++ [path.map (fun p => fm (el.cartesianToLonLat p))]
      , extent := extFold st.extent (path.map el.cartesianToLonLat)
      , index := st.index + 4 * path.length } := by
  obtain ⟨bef, hb⟩ := capBefore_isSome isClosed path h
  obtain ⟨aft, ha⟩ := capAfter_isSome isClosed path h
  unfold seg3v
  rw [hb, ha]
  dsimp only
  rw [pts3v_spec_some]
  simp [segVerts, segTail, ordsOfSeg_eq, hb, ha]

lemma segLL_spec (fm : LonLat → LonLat) (el : Ellipsoid) (isClosed : Bool)
    (path : List LonLat) (st : BOut) (h : ShapeOk isClosed path.length) :
    segLL fm el isClosed path st = some
      { vertices := st.vertices ++ segVerts isClosed (path.map el.lonLatToCartesian)
      , orders := st.orders ++ ordsOfSeg path.length
      , indexes := st.indexes ++ idxRun st.index path.length ++
          segTail isClosed st.index path.length
      , pathLonLat := st.pathLonLat ++ [path]
      , path3v := st.path3v ++ [path.map el.lonLatToCartesian]
      , pathMerc := st.pathMerc ++ [path.map fm]
      , extent := extFold st.extent path
      , index := st.index + 4 * path.length } := by
  have h' : ShapeOk isClosed (path.map el.lonLatToCartesian).length := by
    rwa [List.length_map]
  obtain ⟨bef, hb⟩ := capBefore_isSome isClosed (path.map el.lonLatToCartesian) h'
  obtain ⟨aft, ha⟩ := capAfter_isSome isClosed (path.map el.lonLatToCartesian) h'
  have hb' : capBeforeLL el isClosed path = some bef := by rw [capBeforeLL_eq, hb]
  have ha' : capAfterLL el isClosed path = some aft := by rw [capAfterLL_eq, ha]
  unfold segLL
  rw [hb', ha']
  dsimp only
  rw [ptsLL_spec]
  simp [segVerts, segTail, ordsOfSeg_eq, hb, ha]

lemma segs3v_spec_none (fm : LonLat → LonLat) (isClosed : Bool) (paths : List (List Vec3)) :
    ∀ st : BOut, ValidShape isClosed (paths.map List.length) →
    segs3v fm none isClosed paths st = some
      { vertices := st.vertices ++ vertsSegs isClosed paths
      , orders := st.orders ++ ordersSegs (paths.map List.length)
      , indexes := st.indexes ++ idxSegs isClosed (paths.map List.length) st.index
      , pathLonLat := st.pathLonLat ++ paths.map (fun _ => [])
      , path3v := st.path3v ++ paths.map (fun _ => [])
      , pathMerc := st.pathMerc ++ paths.map (fun _ => [])
      , extent := st.extent
      , index := idxEnd (paths.map List.length) st.index } := by
  induction paths with
  | nil => intro st h; simp [segs3v, vertsSegs, ordersSegs, idxSegs, idxEnd]
  | cons path rest ih =>
    intro st h
    have hhead : ShapeOk isClosed path.length := h _ (by simp)
    have htail : ValidShape isClosed (rest.map List.length) := by
      intro n hn; exact h n (List.mem_cons_of_mem _ hn)
    rw [segs3v, seg3v_spec_none fm isClosed path st hhead]
    cases rest with
    | nil => simp [vertsSegs, ordersSegs, idxSegs, idxEnd, segVerts]
    | cons r rs =>
      rw [Option.some_bind]
      dsimp only
      rw [ih _ htail]
      simp [vertsSegs, ordersSegs, idxSegs, idxEnd]

lemma extFold_append (e : Extent) (xs ys : List LonLat) :
    extFold e (xs ++ ys) = extFold (extFold e xs) ys := by
  unfold extFold; rw [List.foldl_append]

lemma segs3v_spec_some (fm : LonLat → LonLat) (el : Ellipsoid) (isClosed : Bool)
    (paths : List (List Vec3)) :
    ∀ st : BOut, ValidShape isClosed (paths.map List.length) →
    segs3v fm (some el) isClosed paths st = some
      { vertices := st.vertices ++ vertsSegs isClosed paths
      , orders := st.orders ++ ordersSegs (paths.map List.length)
      , indexes := st.indexes ++ idxSegs isClosed (paths.map List.length) st.index
      , pathLonLat := st.pathLonLat ++ paths.map (List.map el.cartesianToLonLat)
      , path3v := st.path3v ++ paths
      , pathMerc := st.pathMerc ++ paths.map (List.map (fun p => fm (el.cartesianToLonLat p)))
      , extent := extFold st.extent (paths.flatten.map el.cartesianToLonLat)
      , index := idxEnd (paths.map List.length) st.index } := by
  induction paths with
  | nil => intro st h; simp [segs3v, vertsSegs, ordersSegs, idxSegs, idxEnd, extFold]
  | cons path rest ih =>
    intro st h
    have hhead : ShapeOk isClosed path.length := h _ (by simp)
    have htail : ValidShape isClosed (rest.map List.length) := by
      intro n hn; exact h n (List.mem_cons_of_mem _ hn)
    rw [segs3v, seg3v_spec_some fm el isClosed path st hhead]
    cases rest with
    | nil => simp [vertsSegs, ordersSegs, idxSegs, idxEnd, segVerts]
    | cons r rs =>
      rw [Option.some_bind]
      dsimp only
      rw [ih _ htail]
      simp [vertsSegs, ordersSegs, idxSegs, idxEnd, extFold_append]

lemma segsLL_spec (fm : LonLat → LonLat) (el : Ellipsoid) (isClosed : Bool)
    (paths : List (List LonLat)) :
    ∀ st : BOut, ValidShape isClosed (paths.map List.length) →
    segsLL fm el isClosed paths st = some
      { vertices := st.vertices ++ vertsSegs isClosed (paths.map (List.map el.lonLatToCartesian))
      , orders := st.orders ++ ordersSegs (paths.map List.length)
      , indexes := st.indexes ++ idxSegs isClosed (paths.map List.length) st.index
      , pathLonLat := st.pathLonLat ++ paths
      , path3v := st.path3v ++ paths.map (List.map el.lonLatToCartesian)
      , pathMerc := st.pathMerc ++ paths.map (List.map fm)
      , extent := extFold st.extent paths.flatten
      , index := idxEnd (paths.map List.length) st.index } := by
  induction paths with
  | nil => intro st h; simp [segsLL, vertsSegs, ordersSegs, idxSegs, idxEnd, extFold]
  | cons path rest ih =>
    intro st h
    have hhead : ShapeOk isClosed path.length := h _ (by simp)
    have htail : ValidShape isClosed (rest.map List.length) := by
      intro n hn; exact h n (List.mem_cons_of_mem _ hn)
    rw [segsLL, segLL_spec fm el isClosed path st hhead]
    cases rest with
    | nil => simp [vertsSegs, ordersSegs, idxSegs, idxEnd, segVerts]
    | cons r rs =>
      rw [Option.some_bind]
      dsimp only
      rw [ih _ htail]
      simp [vertsSegs, ordersSegs, idxSegs, idxEnd, extFold_append]

lemma appendLineData3v_empty_none (fm : LonLat → LonLat) (isClosed : Bool)
    (paths : List (List Vec3)) (h : ValidShape isClosed (paths.map List.length)) :
    appendLineData3v fm none paths isClosed emptyOut = some
      { vertices := vertsSegs isClosed paths
      , orders := ordersSegs (paths.map List.length)
      , indexes := 0 :: 0 :: idxSegs isClosed (paths.map List.length) 0
      , pathLonLat := paths.map (fun _ => [])
      , path3v := paths.map (fun _ => [])
      , pathMerc := paths.map (fun _ => [])
      , extent := extentReset
      , index := idxEnd (paths.map List.length) 0 } := by
  unfold appendLineData3v
  simp only [emptyOut, List.length_nil, Nat.lt_irrefl, if_false, List.nil_append]
  rw [segs3v_spec_none fm isClosed paths _ h]
  simp

lemma appendLineData3v_empty_some (fm : LonLat → LonLat) (el : Ellipsoid) (isClosed : Bool)
    (paths : List (List Vec3)) (h : ValidShape isClosed (paths.map List.length)) :
    appendLineData3v fm (some el) paths isClosed emptyOut = some
      { vertices := vertsSegs isClosed paths
      , orders := ordersSegs (paths.map List.length)
      , indexes := 0 :: 0 :: idxSegs isClosed (paths.map List.length) 0
      , pathLonLat := paths.map (List.map el.cartesianToLonLat)
      , path3v := paths
      , pathMerc := paths.map (List.map (fun p => fm (el.cartesianToLonLat p)))
      , extent := extFold extentReset (paths.flatten.map el.cartesianToLonLat)
      , index := idxEnd (paths.map List.length) 0 } := by
  unfold appendLineData3v
  simp only [emptyOut, List.length_nil, Nat.lt_irrefl, if_false, List.nil_append]
  rw [segs3v_spec_some fm el isClosed paths _ h]
  simp

lemma appendLineDataLonLat_empty (fm : LonLat → LonLat) (el : Ellipsoid) (isClosed : Bool)
    (paths : List (List LonLat)) (h : ValidShape isClosed (paths.map List.length)) :
    appendLineDataLonLat fm el paths isClosed emptyOut = some
      { vertices := vertsSegs isClosed (paths.map (List.map el.lonLatToCartesian))
      , orders := ordersSegs (paths.map List.length)
      , indexes := 0 :: 0 :: idxSegs isClosed (paths.map List.length) 0
      , pathLonLat := paths
      , path3v := paths.map (List.map el.lonLatToCartesian)
      , pathMerc := paths.map (List.map fm)
      , extent := extFold extentReset paths.flatten
      , index := idxEnd (paths.map List.length) 0 } := by
  unfold appendLineDataLonLat
  simp only [emptyOut, List.length_nil, Nat.lt_irrefl, if_false, List.nil_append]
  rw [segsLL_spec fm el isClosed paths _ h]
  simp

lemma flatten_map_dupe12_length (path : List Vec3) :
    ((path.map dupe12).flatten).length = 12 * path.length := by
  induction path with
  | nil => rfl
  | cons p rest ih =>
    have h12 : (dupe12 p).length = 12 := rfl
    simp only [List.map_cons, List.flatten_cons, List.length_append, ih, List.length_cons, h12]
    omega

lemma segVerts_length (isClosed : Bool) (path : List Vec3) :
    (segVerts isClosed path).length = 12 * (path.length + 2) := by
  have hb : (dupe12 ((capBefore isClosed path).getD zero3)).length = 12 := rfl
  have ha : (dupe12 ((capAfter isClosed path).getD zero3)).length = 12 := rfl
  simp only [segVerts, List.length_append, hb, ha, flatten_map_dupe12_length]
  omega

lemma idxRun_length : ∀ (n i : ℕ), (idxRun i n).length = 4 * n
  | 0, _ => rfl
  | n + 1, i => by
    simp only [idxRun, List.length_cons, idxRun_length n (i + 4)]
    omega

lemma segTail_length (isClosed : Bool) (i0 n : ℕ) :
    (segTail isClosed i0 n).length = 4 := by
  unfold segTail; split <;> rfl

lemma idxSegs_length (isClosed : Bool) :
    ∀ (lens : List ℕ) (i0 : ℕ), lens ≠ [] →
      (idxSegs isClosed lens i0).length =
        4 * lens.sum + 4 * lens.length + 2 * (lens.length - 1)
  | [], _, h => absurd rfl h
  | [n], i0, _ => by
    simp only [idxSegs, List.length_append, idxRun_length, segTail_length, List.sum_cons,
      List.sum_nil, List.length_cons, List.length_nil]
    omega
  | n :: r :: rs, i0, _ => by
    have ih := idxSegs_length isClosed (r :: rs) (i0 + 4 * n + 8) (by simp)
    simp only [idxSegs, List.length_append, List.length_cons, idxRun_length, segTail_length, ih,
      List.sum_cons, List.length_nil]
    omega

/-- The mesh triple (vertices, orders, indexes) of a full Cartesian rebuild:
the orders and indexes depend only on the segment-length shape. -/
lemma build3v_mesh (fm : LonLat → LonLat) (oe : Option Ellipsoid) (isClosed : Bool)
    (paths : List (List Vec3)) (h : ValidShape isClosed (paths.map List.length)) :
    ∃ out, appendLineData3v fm oe paths isClosed emptyOut = some out ∧
      out.vertices = vertsSegs isClosed paths ∧
      out.orders = ordersSegs (paths.map List.length) ∧
      out.indexes = 0 :: 0 :: idxSegs isClosed (paths.map List.length) 0 := by
  cases oe with
  | none => exact ⟨_, appendLineData3v_empty_none fm isClosed paths h, rfl, rfl, rfl⟩
  | some el => exact ⟨_, appendLineData3v_empty_some fm el isClosed paths h, rfl, rfl, rfl⟩

/-- The mesh triple of a full geodetic rebuild: the vertices are those of the
Cartesian build of the pointwise `lonLatToCartesian` image, and orders and
indexes again depend only on the shape. -/
lemma buildLL_mesh (fm : LonLat → LonLat) (el : Ellipsoid) (isClosed : Bool)
    (paths : List (List LonLat)) (h : ValidShape isClosed (paths.map List.length)) :
    ∃ out, appendLineDataLonLat fm el paths isClosed emptyOut = some out ∧
      out.vertices = vertsSegs isClosed (paths.map (List.map el.lonLatToCartesian)) ∧
      out.orders = ordersSegs (paths.map List.length) ∧
      out.indexes = 0 :: 0 :: idxSegs isClosed (paths.map List.length) 0 := by
  exact ⟨_, appendLineDataLonLat_empty fm el isClosed paths h, rfl, rfl, rfl⟩

lemma capBefore_open (seg : List Vec3) (h : 2 ≤ seg.length) :
    capBefore false seg = some (extrap (seg.getD 0 zero3) (seg.getD 1 zero3)) := by
  unfold capBefore
  rw [if_neg (by simp), if_neg (by omega)]

lemma capAfter_open (seg : List Vec3) (h : 2 ≤ seg.length) :
    capAfter false seg = some (extrap (seg.getD (seg.length - 1) zero3)
      (seg.getD (seg.length - 2) zero3)) := by
  unfold capAfter
  rw [if_neg (by simp), if_neg (by omega)]

lemma capBefore_closed (seg : List Vec3) (h : 1 ≤ seg.length) :
    capBefore true seg = some (seg.getD (seg.length - 1) zero3) := by
  unfold capBefore
  rw [if_pos rfl, if_neg (by omega)]

lemma capAfter_closed (seg : List Vec3) (h : 1 ≤ seg.length) :
    capAfter true seg = some (seg.getD 0 zero3) := by
  unfold capAfter
  rw [if_pos rfl, if_neg (by omega)]

lemma segVerts_take12 (isClosed : Bool) (seg : List Vec3) :
    (segVerts isClosed seg).take 12 = dupe12 ((capBefore isClosed seg).getD zero3) := by
  unfold segVerts
  rw [List.append_assoc, List.take_left' (by rfl)]

lemma segVerts_drop (isClosed : Bool) (seg : List Vec3) :
    (segVerts isClosed seg).drop (12 * (seg.length + 1)) =
      dupe12 ((capAfter isClosed seg).getD zero3) := by
  unfold segVerts
  refine List.drop_left' ?_
  have h12 : (dupe12 ((capBefore isClosed seg).getD zero3)).length = 12 := rfl
  simp only [List.length_append, h12, flatten_map_dupe12_length]
  omega

/-- Claim C1: for every open segment of length `n ≥ 2` built by the Cartesian
mesh builder from empty output arrays, the vertex array has exactly
`12·(n+2)` entries, the order array repeats the cycle `1, -1, 2, -2` exactly
`n+2` times, the synthetic before-cap block holds `2·P0 − P1` and the
after-cap block `2·P(n-1) − P(n-2)`, each replicated as four identical
3-entry positions; in particular the path `[[(0,0,0),(1,0,0),(1,1,0)]]`
yields 60 vertex entries with before-cap `(-1,0,0)` and after-cap `(1,2,0)`. -/
theorem claim1_open_build :
    (∀ (fm : LonLat → LonLat) (oe : Option Ellipsoid) (seg : List Vec3), 2 ≤ seg.length →
      ∃ out, appendLineData3v fm oe [seg] false emptyOut = some out ∧
        out.vertices.length = 12 * (seg.length + 2) ∧
        out.orders = (List.replicate (seg.length + 2) ordQuad).flatten ∧
        out.vertices.take 12 = dupe12 (extrap (seg.getD 0 zero3) (seg.getD 1 zero3)) ∧
        out.vertices.drop (12 * (seg.length + 1)) =
          dupe12 (extrap (seg.getD (seg.length - 1) zero3) (seg.getD (seg.length - 2) zero3))) ∧
    (appendLineData3v fmEx none [[⟨0,0,0⟩,⟨1,0,0⟩,⟨1,1,0⟩]] false emptyOut).map
        (fun o => (o.vertices.length, o.orders, o.vertices.take 12, o.vertices.drop 48)) =
      some (60, (List.replicate 5 ordQuad).flatten, dupe12 ⟨-1,0,0⟩, dupe12 ⟨1,2,0⟩) := by
  constructor
  · intro fm oe seg h
    have hval : ValidShape false ([seg].map List.length) := by
      intro n hn
      simp only [List.map_cons, List.map_nil, List.mem_singleton] at hn
      subst hn
      unfold ShapeOk
      simpa using h
    obtain ⟨out, hbuild, hv, ho, _⟩ := build3v_mesh fm oe false [seg] hval
    have hvs : vertsSegs false [seg] = segVerts false seg := by
      simp [vertsSegs]
    refine ⟨out, hbuild, ?_, ?_, ?_, ?_⟩
    · rw [hv, hvs, segVerts_length]
    · rw [ho]; simp [ordersSegs, ordsOfSeg]
    · rw [hv, hvs, segVerts_take12, capBefore_open seg h, Option.getD_some]
    · rw [hv, hvs, segVerts_drop, capAfter_open seg h, Option.getD_some]
  · decide

/-- Instantiation of the universally quantified part of C1 at the concrete
scenario path, discharging its hypothesis. -/
theorem claim1_open_build_witness :
    2 ≤ ([(⟨0,0,0⟩ : Vec3), ⟨1,0,0⟩, ⟨1,1,0⟩] : List Vec3).length ∧
    (∃ out, appendLineData3v fmEx none [[(⟨0,0,0⟩ : Vec3), ⟨1,0,0⟩, ⟨1,1,0⟩]] false emptyOut =
        some out ∧
      out.vertices.length = 12 * (([(⟨0,0,0⟩ : Vec3), ⟨1,0,0⟩, ⟨1,1,0⟩] : List Vec3).length + 2) ∧
      out.orders = (List.replicate (([(⟨0,0,0⟩ : Vec3), ⟨1,0,0⟩, ⟨1,1,0⟩] : List Vec3).length + 2)
        ordQuad).flatten ∧
      out.vertices.take 12 = dupe12 (extrap (([(⟨0,0,0⟩ : Vec3), ⟨1,0,0⟩, ⟨1,1,0⟩] :
        List Vec3).getD 0 zero3) (([(⟨0,0,0⟩ : Vec3), ⟨1,0,0⟩, ⟨1,1,0⟩] : List Vec3).getD 1 zero3)) ∧
      out.vertices.drop (12 * (([(⟨0,0,0⟩ : Vec3), ⟨1,0,0⟩, ⟨1,1,0⟩] : List Vec3).length + 1)) =
        dupe12 (extrap (([(⟨0,0,0⟩ : Vec3), ⟨1,0,0⟩, ⟨1,1,0⟩] : List Vec3).getD
          (([(⟨0,0,0⟩ : Vec3), ⟨1,0,0⟩, ⟨1,1,0⟩] : List Vec3).length - 1) zero3)
          (([(⟨0,0,0⟩ : Vec3), ⟨1,0,0⟩, ⟨1,1,0⟩] : List Vec3).getD
          (([(⟨0,0,0⟩ : Vec3), ⟨1,0,0⟩, ⟨1,1,0⟩] : List Vec3).length - 2) zero3))) :=
  ⟨by decide, claim1_open_build.1 fmEx none [⟨0,0,0⟩, ⟨1,0,0⟩, ⟨1,1,0⟩] (by decide)⟩

/-- Claim C6: for every closed segment of length `n ≥ 2` built by the mesh
builder, the synthetic before-cap block equals the segment's last real point
and the after-cap block equals the first real point (wrap-around, no
extrapolation), each replicated as four identical 3-entry positions. -/
theorem claim6_closed_caps :
    ∀ (fm : LonLat → LonLat) (oe : Option Ellipsoid) (seg : List Vec3), 2 ≤ seg.length →
      ∃ out, appendLineData3v fm oe [seg] true emptyOut = some out ∧
        out.vertices.length = 12 * (seg.length + 2) ∧
        out.vertices.take 12 = dupe12 (seg.getD (seg.length - 1) zero3) ∧
        out.vertices.drop (12 * (seg.length + 1)) = dupe12 (seg.getD 0 zero3) := by
  intro fm oe seg h
  have hval : ValidShape true ([seg].map List.length) := by
    intro n hn
    simp only [List.map_cons, List.map_nil, List.mem_singleton] at hn
    subst hn
    unfold ShapeOk
    simp only [if_true, ite_true]
    omega
  obtain ⟨out, hbuild, hv, _, _⟩ := build3v_mesh fm oe true [seg] hval
  have hvs : vertsSegs true [seg] = segVerts true seg := by simp [vertsSegs]
  refine ⟨out, hbuild, ?_, ?_, ?_⟩
  · rw [hv, hvs, segVerts_length]
  · rw [hv, hvs, segVerts_take12, capBefore_closed seg (by omega), Option.getD_some]
  · rw [hv, hvs, segVerts_drop, capAfter_closed seg (by omega), Option.getD_some]

/-- Instantiation of C6 at a concrete closed triangle path. -/
theorem claim6_closed_caps_witness :
    2 ≤ ([(⟨0,0,0⟩ : Vec3), ⟨4,0,0⟩, ⟨4,3,0⟩] : List Vec3).length ∧
    (∃ out, appendLineData3v fmEx none [[(⟨0,0,0⟩ : Vec3), ⟨4,0,0⟩, ⟨4,3,0⟩]] true emptyOut =
        some out ∧
      out.vertices.length = 12 * (([(⟨0,0,0⟩ : Vec3), ⟨4,0,0⟩, ⟨4,3,0⟩] : List Vec3).length + 2) ∧
      out.vertices.take 12 = dupe12 (([(⟨0,0,0⟩ : Vec3), ⟨4,0,0⟩, ⟨4,3,0⟩] : List Vec3).getD
        (([(⟨0,0,0⟩ : Vec3), ⟨4,0,0⟩, ⟨4,3,0⟩] : List Vec3).length - 1) zero3) ∧
      out.vertices.drop (12 * (([(⟨0,0,0⟩ : Vec3), ⟨4,0,0⟩, ⟨4,3,0⟩] : List Vec3).length + 1)) =
        dupe12 (([(⟨0,0,0⟩ : Vec3), ⟨4,0,0⟩, ⟨4,3,0⟩] : List Vec3).getD 0 zero3)) :=
  ⟨by decide, claim6_closed_caps fmEx none [⟨0,0,0⟩, ⟨4,0,0⟩, ⟨4,3,0⟩] (by decide)⟩

/-- Counterexample to claim C3 as stated: the open two-segment path with
segment lengths `[3, 2]` produces an index array of length 32, not
`4·(3+2) + 4·2 = 28`. -/
theorem claim3_counterexample :
    (appendLineData3v fmEx none [[⟨0,0,0⟩, ⟨1,0,0⟩, ⟨1,1,0⟩], [⟨0,0,0⟩, ⟨1,0,0⟩]]
        false emptyOut).map (fun o => o.indexes.length) = some 32 ∧
    (32 : ℕ) ≠ 4 * (3 + 2) + 4 * 2 := by
  decide

/-- Claim C3 as amended: for every multi-segment open path with `k ≥ 1`
segments of lengths `n1..nk` (each `≥ 2`), a full rebuild produces an index
array of length `4·Σni + 6k` (the leading degenerate pair contributes 2, each
segment `4·ni + 4`, and each of the `k − 1` seams 2). -/
theorem claim3_amended :
    ∀ (fm : LonLat → LonLat) (oe : Option Ellipsoid) (paths : List (List Vec3)),
      paths ≠ [] → (∀ s ∈ paths, 2 ≤ List.length s) →
      ∃ out, appendLineData3v fm oe paths false emptyOut = some out ∧
        out.indexes.length = 4 * (paths.map List.length).sum + 6 * paths.length := by
  intro fm oe paths hne h2
  have hval : ValidShape false (paths.map List.length) := by
    intro n hn
    rw [List.mem_map] at hn
    obtain ⟨s, hs, rfl⟩ := hn
    unfold ShapeOk
    simpa using h2 s hs
  obtain ⟨out, hbuild, _, _, hix⟩ := build3v_mesh fm oe false paths hval
  have hlens : paths.map List.length ≠ [] := by
    simpa using hne
  have hlen := idxSegs_length false (paths.map List.length) 0 hlens
  have hk : 0 < (paths.map List.length).length := List.length_pos.mpr hlens
  refine ⟨out, hbuild, ?_⟩
  rw [hix]
  simp only [List.length_cons, hlen, List.length_map] at *
  omega

/-- Instantiation of the amended C3 at the concrete `[3, 2]` case. -/
theorem claim3_amended_witness :
    ([[(⟨0,0,0⟩ : Vec3), ⟨1,0,0⟩, ⟨1,1,0⟩], [⟨0,0,0⟩, ⟨1,0,0⟩]] : List (List Vec3)) ≠ [] ∧
    (∀ s ∈ ([[(⟨0,0,0⟩ : Vec3), ⟨1,0,0⟩, ⟨1,1,0⟩], [⟨0,0,0⟩, ⟨1,0,0⟩]] : List (List Vec3)),
      2 ≤ List.length s) ∧
    (∃ out, appendLineData3v fmEx none
        [[(⟨0,0,0⟩ : Vec3), ⟨1,0,0⟩, ⟨1,1,0⟩], [⟨0,0,0⟩, ⟨1,0,0⟩]] false emptyOut = some out ∧
      out.indexes.length =
        4 * (([[(⟨0,0,0⟩ : Vec3), ⟨1,0,0⟩, ⟨1,1,0⟩], [⟨0,0,0⟩, ⟨1,0,0⟩]] :
          List (List Vec3)).map List.length).sum +
        6 * ([[(⟨0,0,0⟩ : Vec3), ⟨1,0,0⟩, ⟨1,1,0⟩], [⟨0,0,0⟩, ⟨1,0,0⟩]] :
          List (List Vec3)).length) :=
  ⟨by decide, by decide,
    claim3_amended fmEx none [[⟨0,0,0⟩, ⟨1,0,0⟩, ⟨1,1,0⟩], [⟨0,0,0⟩, ⟨1,0,0⟩]]
      (by decide) (by decide)⟩

/-- Claim C7 (evaluation at the failing input): the mesh builder performs no
length validation — a closed segment consisting of a single point is accepted
and produces output arrays (36 vertex entries, a 10-entry index array with
both caps wrapped onto the lone point) instead of rejecting the call. -/
theorem claim7_no_validation :
    (appendLineData3v fmEx none [[⟨1,2,3⟩]] true emptyOut).map
      (fun o => (o.vertices.length, o.indexes)) =
    some (36, [0, 0, 0, 1, 2, 3, 0, 1, 1, 1]) := by
  decide

lemma shape_map_ltc (el : Ellipsoid) (paths : List (List LonLat)) :
    (paths.map (List.map el.lonLatToCartesian)).map List.length = paths.map List.length := by
  rw [List.map_map]
  apply List.map_congr_left
  intro s _
  simp

/-- Claim C5: for every ellipsoid and every geodetic multi-segment path (with
every segment long enough for the builders not to crash), the geodetic build
and the Cartesian build applied to the pointwise `lonLatToCartesian` image of
the path — with the same closed flag, starting from empty output arrays —
produce identical vertex, order, and index arrays. -/
theorem claim5_refinement :
    ∀ (fm : LonLat → LonLat) (el : Ellipsoid) (oe : Option Ellipsoid) (isClosed : Bool)
      (paths : List (List LonLat)), ValidShape isClosed (paths.map List.length) →
      ∃ o1 o2, appendLineDataLonLat fm el paths isClosed emptyOut = some o1 ∧
        appendLineData3v fm oe (paths.map (List.map el.lonLatToCartesian)) isClosed emptyOut =
          some o2 ∧
        o1.vertices = o2.vertices ∧ o1.orders = o2.orders ∧ o1.indexes = o2.indexes := by
  intro fm el oe isClosed paths h
  have h3v : ValidShape isClosed ((paths.map (List.map el.lonLatToCartesian)).map List.length) := by
    rw [shape_map_ltc]; exact h
  obtain ⟨o1, hb1, hv1, ho1, hi1⟩ := buildLL_mesh fm el isClosed paths h
  obtain ⟨o2, hb2, hv2, ho2, hi2⟩ :=
    build3v_mesh fm oe isClosed (paths.map (List.map el.lonLatToCartesian)) h3v
  refine ⟨o1, o2, hb1, hb2, ?_, ?_, ?_⟩
  · rw [hv1, hv2]
  · rw [ho1, ho2, shape_map_ltc]
  · rw [hi1, hi2, shape_map_ltc]

/-- Instantiation of C5 at a concrete two-point geodetic path. -/
theorem claim5_refinement_witness :
    ValidShape false (([[(⟨1,2,3⟩ : LonLat), ⟨4,5,6⟩]] : List (List LonLat)).map List.length) ∧
    (∃ o1 o2, appendLineDataLonLat fmEx elEx [[(⟨1,2,3⟩ : LonLat), ⟨4,5,6⟩]] false emptyOut =
        some o1 ∧
      appendLineData3v fmEx none
        (([[(⟨1,2,3⟩ : LonLat), ⟨4,5,6⟩]] : List (List LonLat)).map
          (List.map elEx.lonLatToCartesian)) false emptyOut = some o2 ∧
      o1.vertices = o2.vertices ∧ o1.orders = o2.orders ∧ o1.indexes = o2.indexes) :=
  ⟨by decide, claim5_refinement fmEx elEx none false [[⟨1,2,3⟩, ⟨4,5,6⟩]] (by decide)⟩

/-- Claim C10: the order and index outputs of both mesh builders depend only
on the path's shape (segment count, per-segment lengths, closed flag), never
on the coordinate values: any two builds — Cartesian/Cartesian,
geodetic/geodetic, or one of each — over paths of identical shape emit
identical order arrays and identical index arrays. -/
theorem claim10_shape_only :
    (∀ (fm fm' : LonLat → LonLat) (oe oe' : Option Ellipsoid) (isClosed : Bool)
       (p q : List (List Vec3)), ValidShape isClosed (p.map List.length) →
       p.map List.length = q.map List.length →
       ∃ o1 o2, appendLineData3v fm oe p isClosed emptyOut = some o1 ∧
         appendLineData3v fm' oe' q isClosed emptyOut = some o2 ∧
         o1.orders = o2.orders ∧ o1.indexes = o2.indexes) ∧
    (∀ (fm fm' : LonLat → LonLat) (el el' : Ellipsoid) (isClosed : Bool)
       (p q : List (List LonLat)), ValidShape isClosed (p.map List.length) →
       p.map List.length = q.map List.length →
       ∃ o1 o2, appendLineDataLonLat fm el p isClosed emptyOut = some o1 ∧
         appendLineDataLonLat fm' el' q isClosed emptyOut = some o2 ∧
         o1.orders = o2.orders ∧ o1.indexes = o2.indexes) ∧
    (∀ (fm fm' : LonLat → LonLat) (oe : Option Ellipsoid) (el : Ellipsoid) (isClosed : Bool)
       (p : List (List Vec3)) (q : List (List LonLat)), ValidShape isClosed (p.map List.length) →
       p.map List.length = q.map List.length →
       ∃ o1 o2, appendLineData3v fm oe p isClosed emptyOut = some o1 ∧
         appendLineDataLonLat fm' el q isClosed emptyOut = some o2 ∧
         o1.orders = o2.orders ∧ o1.indexes = o2.indexes) := by
  refine ⟨?_, ?_, ?_⟩
  · intro fm fm' oe oe' isClosed p q hp hshape
    obtain ⟨o1, hb1, _, ho1, hi1⟩ := build3v_mesh fm oe isClosed p hp
    obtain ⟨o2, hb2, _, ho2, hi2⟩ := build3v_mesh fm' oe' isClosed q (hshape ▸ hp)
    exact ⟨o1, o2, hb1, hb2, by rw [ho1, ho2, hshape], by rw [hi1, hi2, hshape]⟩
  · intro fm fm' el el' isClosed p q hp hshape
    obtain ⟨o1, hb1, _, ho1, hi1⟩ := buildLL_mesh fm el isClosed p hp
    obtain ⟨o2, hb2, _, ho2, hi2⟩ := buildLL_mesh fm' el' isClosed q (hshape ▸ hp)
    exact ⟨o1, o2, hb1, hb2, by rw [ho1, ho2, hshape], by rw [hi1, hi2, hshape]⟩
  · intro fm fm' oe el isClosed p q hp hshape
    obtain ⟨o1, hb1, _, ho1, hi1⟩ := build3v_mesh fm oe isClosed p hp
    obtain ⟨o2, hb2, _, ho2, hi2⟩ := buildLL_mesh fm' el isClosed q (hshape ▸ hp)
    exact ⟨o1, o2, hb1, hb2, by rw [ho1, ho2, hshape], by rw [hi1, hi2, hshape]⟩

/-- Instantiation of the cross-builder part of C10 at two same-shape paths
with entirely different coordinates. -/
theorem claim10_shape_only_witness :
    ValidShape false (([[(⟨7,8,9⟩ : Vec3), ⟨10,11,12⟩]] : List (List Vec3)).map List.length) ∧
    (([[(⟨7,8,9⟩ : Vec3), ⟨10,11,12⟩]] : List (List Vec3)).map List.length =
      ([[(⟨1,2,3⟩ : LonLat), ⟨4,5,6⟩]] : List (List LonLat)).map List.length) ∧
    (∃ o1 o2, appendLineData3v fmEx none [[(⟨7,8,9⟩ : Vec3), ⟨10,11,12⟩]] false emptyOut =
        some o1 ∧
      appendLineDataLonLat fmEx elEx [[(⟨1,2,3⟩ : LonLat), ⟨4,5,6⟩]] false emptyOut = some o2 ∧
      o1.orders = o2.orders ∧ o1.indexes = o2.indexes) :=
  ⟨by decide, by decide,
    claim10_shape_only.2.2 fmEx fmEx none elEx false [[⟨7,8,9⟩, ⟨10,11,12⟩]]
      [[⟨1,2,3⟩, ⟨4,5,6⟩]] (by decide) (by decide)⟩

/-- Counterexample to claim C8 as stated: with both dirty flags set on an
attached polyline, `_update` invokes slot `INDEX_BUFFER = 1` first, not the
vertex-buffer slot — the downward `while (i--)` loop visits slot 1 before
slot 0, so the invocation trace is not `[VERTICES_BUFFER, INDEX_BUFFER]`. -/
theorem claim8_counterexample :
    (update true [true, true]).1 ≠ [VERTICES_BUFFER, INDEX_BUFFER] := by
  decide

/-- Claim C8 as amended: with both dirty flags set on an attached polyline,
`_update` invokes the index-buffer rebuild-and-upload routine first and the
vertex-buffer routine second, clearing each flag after its routine, so both
dirty flags are false afterwards. -/
theorem claim8_amended :
    update true [true, true] = ([INDEX_BUFFER, VERTICES_BUFFER], [false, false]) := by
  decide

/-- Counterexample to claim C9 as stated: after `clear()` the Cartesian
coordinate store is *not* emptied — on a polyline holding one stored point it
still holds that point. -/
theorem claim9_counterexample :
    (clear pEx9).path3v = [[⟨1,1,1⟩]] ∧
    ([[(⟨1,1,1⟩ : Vec3)]] : List (List Vec3)) ≠ [] := by
  constructor
  · rfl
  · decide

/-- Claim C9 as amended: after `clear()` the vertex, order and index
sequences are empty and, when the polyline is attached, the three GPU buffer
handles are released (nulled); the three coordinate stores (Cartesian,
geodetic, Mercator) are left unchanged — they are only replaced by the
rebuild path (`_clearData` inside `_createData*`), not by `clear()`. -/
theorem claim9_amended :
    ∀ p : Poly,
      (clear p).vertices = [] ∧ (clear p).orders = [] ∧ (clear p).indexes = [] ∧
      (clear p).path3v = p.path3v ∧ (clear p).pathLonLat = p.pathLonLat ∧
      (clear p).pathLonLatMerc = p.pathLonLatMerc ∧
      (clear p).verticesBuffer = (if p.renderNode.isSome then none else p.verticesBuffer) ∧
      (clear p).ordersBuffer = (if p.renderNode.isSome then none else p.ordersBuffer) ∧
      (clear p).indexesBuffer = (if p.renderNode.isSome then none else p.indexesBuffer) := by
  intro p
  unfold clear deleteBuffers
  by_cases h : p.renderNode.isSome <;> simp [h]

lemma writeBlock_length : ∀ (xs v : List ℤ) (k : ℕ),
    (writeBlock v k xs).length = v.length
  | [], _, _ => rfl
  | x :: xs, v, k => by
    rw [writeBlock, writeBlock_length xs, List.length_set]

lemma writeBlock_eq_splice : ∀ (xs v : List ℤ) (k : ℕ), k + xs.length ≤ v.length →
    writeBlock v k xs = splice v k xs
  | [], v, k, h => by
    simp only [writeBlock, splice, List.length_nil, Nat.add_zero, List.nil_append,
      List.append_nil]
    rw [List.take_append_drop]
  | x :: xs, v, k, h => by
    have hk : k < v.length := by simp at h; omega
    rw [writeBlock, writeBlock_eq_splice xs (v.set k x) (k + 1)
      (by rw [List.length_set]; simp at h ⊢; omega)]
    unfold splice
    rw [List.set_eq_take_cons_drop x hk]
    have hlen : (List.take k v).length = k := List.length_take_of_le (by omega)
    rw [List.take_append_eq_append_take, List.take_of_length_le (by omega), hlen]
    rw [List.drop_append_eq_append_drop, hlen]
    have h1 : k + 1 - k = 1 := by omega
    have h2 : k + 1 - k - 1 = 0 := by omega
    simp only [h1, h2]
    have e1 : List.take 1 (x :: List.drop (k + 1) v) = [x] := rfl
    have e2 : List.drop (k + 1 + xs.length) (List.take k v) = [] := by
      apply List.drop_eq_nil_of_le
      rw [hlen]; omega
    have e3 : k + 1 + xs.length - k = xs.length + 1 := by omega
    rw [e1, e2, e3, List.nil_append, List.drop_succ_cons, List.drop_drop]
    have e4 : k + (x :: xs).length = xs.length + (k + 1) := by
      simp only [List.length_cons]; omega
    rw [e4]
    simp [List.append_assoc]
    congr 1
    omega

lemma splice_length (v : List ℤ) (k : ℕ) (b : List ℤ) (h : k + b.length ≤ v.length) :
    (splice v k b).length = v.length := by
  unfold splice
  simp only [List.length_append, List.length_take, List.length_drop]
  omega

lemma capBefore_getD (isClosed : Bool) (path : List Vec3) (h : 2 ≤ path.length) :
    (capBefore isClosed path).getD zero3 =
      if isClosed then path.getD (path.length - 1) zero3
      else extrap (path.getD 0 zero3) (path.getD 1 zero3) := by
  cases isClosed
  · rw [capBefore_open path h]; simp
  · rw [capBefore_closed path (by omega)]; simp

lemma capAfter_getD (isClosed : Bool) (path : List Vec3) (h : 2 ≤ path.length) :
    (capAfter isClosed path).getD zero3 =
      if isClosed then path.getD 0 zero3
      else extrap (path.getD (path.length - 1) zero3) (path.getD (path.length - 2) zero3) := by
  cases isClosed
  · rw [capAfter_open path h]; simp
  · rw [capAfter_closed path (by omega)]; simp

lemma priorOffset_add_le : ∀ (paths : List (List Vec3)) (si : ℕ), si < paths.length →
    priorOffset paths si + 12 * ((paths.getD si []).length + 2) ≤ vertLen paths
  | [], si, h => absurd h (by simp)
  | p :: ps, 0, _ => by
    simp only [priorOffset, vertLen, List.take_zero, List.map_nil, List.sum_nil,
      List.getD_cons_zero, List.map_cons, List.sum_cons]
    omega
  | p :: ps, si + 1, h => by
    have ih := priorOffset_add_le ps si (by simpa using h)
    simp only [priorOffset, vertLen, List.take_succ_cons, List.map_cons, List.sum_cons,
      List.getD_cons_succ] at ih ⊢
    omega

/-- Claim C2: on an attached polyline, `setPoint3v` overwrites the edited
point's 12-entry block — starting at flat offset
`Σ_{i<segmentIndex}(len_i·12 + 24) + index·12 + 12` — with the new position
replicated four times; it rewrites the before-cap block (at the segment's
start offset) exactly when `index` is 0 or 1 and the after-cap block (at
start offset + `len·12 + 12`) exactly when `index` is the last or
second-to-last point, both using the same wrap (closed) / extrapolation
(open) rule as the full build (`capBefore` / `capAfter` applied to the
updated segment); and it sets only the vertex-buffer dirty flag — the
index-buffer dirty flag and the index array are unchanged. -/
theorem claim2_setPoint3v :
    ∀ (fm : LonLat → LonLat) (p : Poly) (c : Vec3) (index segmentIndex : ℕ)
      (forceLonLat : Bool) (oe : Option Ellipsoid),
      p.renderNode = some oe →
      segmentIndex < p.path3v.length →
      2 ≤ (p.path3v.getD segmentIndex []).length →
      index < (p.path3v.getD segmentIndex []).length →
      p.vertices.length = vertLen p.path3v →
      (setPoint3v fm p c index segmentIndex forceLonLat).vertices =
        (if index = (p.path3v.getD segmentIndex []).length - 1 ∨
            index = (p.path3v.getD segmentIndex []).length - 2 then
          splice
            (splice
              (if index = 0 ∨ index = 1 then
                splice p.vertices (priorOffset p.path3v segmentIndex)
                  (dupe12 ((capBefore p.closedLine
                    ((p.path3v.getD segmentIndex []).set index c)).getD zero3))
              else p.vertices)
              (priorOffset p.path3v segmentIndex + index * 12 + 12) (dupe12 c))
            (priorOffset p.path3v segmentIndex +
              (p.path3v.getD segmentIndex []).length * 12 + 12)
            (dupe12 ((capAfter p.closedLine
              ((p.path3v.getD segmentIndex []).set index c)).getD zero3))
        else
          splice
            (if index = 0 ∨ index = 1 then
              splice p.vertices (priorOffset p.path3v segmentIndex)
                (dupe12 ((capBefore p.closedLine
                  ((p.path3v.getD segmentIndex []).set index c)).getD zero3))
            else p.vertices)
            (priorOffset p.path3v segmentIndex + index * 12 + 12) (dupe12 c)) ∧
      (setPoint3v fm p c index segmentIndex forceLonLat).changedVerticesBuffer = true ∧
      (setPoint3v fm p c index segmentIndex forceLonLat).changedIndexBuffer =
        p.changedIndexBuffer ∧
      (setPoint3v fm p c index segmentIndex forceLonLat).indexes = p.indexes ∧
      (setPoint3v fm p c index segmentIndex forceLonLat).orders = p.orders := by
  intro fm p c index segmentIndex forceLonLat oe hrn hsi hn2 hidx hv
  have hoff : priorOffset p.path3v segmentIndex +
      12 * ((p.path3v.getD segmentIndex []).length + 2) ≤ vertLen p.path3v :=
    priorOffset_add_le p.path3v segmentIndex hsi
  have h12 : ∀ x : Vec3, (dupe12 x).length = 12 := fun _ => rfl
  refine ⟨?verts, ?fa, ?fb, ?fc, ?fd⟩
  case fa => simp only [setPoint3v, hrn]
  case fb => simp only [setPoint3v, hrn]
  case fc => simp only [setPoint3v, hrn]
  case fd => simp only [setPoint3v, hrn]
  have hcapB := (capBefore_getD p.closedLine
    ((p.path3v.getD segmentIndex []).set index c) (by rw [List.length_set]; omega)).symm
  have hcapA := (capAfter_getD p.closedLine
    ((p.path3v.getD segmentIndex []).set index c) (by rw [List.length_set]; omega)).symm
  simp only [List.length_set] at hcapB hcapA
  simp only [setPoint3v, hrn, List.length_set, hcapB, hcapA]
  by_cases h1 : index = 0 ∨ index = 1 <;>
    by_cases h2 : index = (p.path3v.getD segmentIndex []).length - 1 ∨
      index = (p.path3v.getD segmentIndex []).length - 2
  · simp only [eq_true h1, eq_true h2, if_true, ite_true]
    rw [writeBlock_eq_splice _ _ _ (by simp only [writeBlock_length, h12, hv]; omega)]
    rw [writeBlock_eq_splice _ _ _ (by simp only [writeBlock_length, h12, hv]; omega)]
    rw [writeBlock_eq_splice _ _ _ (by simp only [writeBlock_length, h12, hv]; omega)]
  · simp only [eq_true h1, eq_false h2, if_true, ite_true, if_false, ite_false]
    rw [writeBlock_eq_splice _ _ _ (by simp only [writeBlock_length, h12, hv]; omega)]
    rw [writeBlock_eq_splice _ _ _ (by simp only [writeBlock_length, h12, hv]; omega)]
  · simp only [eq_false h1, eq_true h2, if_true, ite_true, if_false, ite_false]
    rw [writeBlock_eq_splice _ _ _ (by simp only [writeBlock_length, h12, hv]; omega)]
    rw [writeBlock_eq_splice _ _ _ (by simp only [writeBlock_length, h12, hv]; omega)]
  · simp only [eq_false h1, eq_false h2, if_false, ite_false]
    rw [writeBlock_eq_splice _ _ _ (by simp only [writeBlock_length, h12, hv]; omega)]

/-- Instantiation of C2: `setPoint3v((5,5,5), 1, 0)` on the scenario path —
index 1 is the second point, so the before-cap block is also rewritten, the
after-cap is not (3-point segment), and the index array and its dirty flag
are untouched. -/
theorem claim2_setPoint3v_witness :
    pEx2.renderNode = some none ∧
    0 < pEx2.path3v.length ∧
    2 ≤ (pEx2.path3v.getD 0 []).length ∧
    1 < (pEx2.path3v.getD 0 []).length ∧
    pEx2.vertices.length = vertLen pEx2.path3v ∧
    ((setPoint3v fmEx pEx2 ⟨5,5,5⟩ 1 0 false).vertices =
      (if 1 = (pEx2.path3v.getD 0 []).length - 1 ∨ 1 = (pEx2.path3v.getD 0 []).length - 2 then
        splice
          (splice
            (if 1 = 0 ∨ 1 = 1 then
              splice pEx2.vertices (priorOffset pEx2.path3v 0)
                (dupe12 ((capBefore pEx2.closedLine
                  ((pEx2.path3v.getD 0 []).set 1 ⟨5,5,5⟩)).getD zero3))
            else pEx2.vertices)
            (priorOffset pEx2.path3v 0 + 1 * 12 + 12) (dupe12 ⟨5,5,5⟩))
          (priorOffset pEx2.path3v 0 + (pEx2.path3v.getD 0 []).length * 12 + 12)
          (dupe12 ((capAfter pEx2.closedLine
            ((pEx2.path3v.getD 0 []).set 1 ⟨5,5,5⟩)).getD zero3))
      else
        splice
          (if 1 = 0 ∨ 1 = 1 then
            splice pEx2.vertices (priorOffset pEx2.path3v 0)
              (dupe12 ((capBefore pEx2.closedLine
                ((pEx2.path3v.getD 0 []).set 1 ⟨5,5,5⟩)).getD zero3))
          else pEx2.vertices)
          (priorOffset pEx2.path3v 0 + 1 * 12 + 12) (dupe12 ⟨5,5,5⟩)) ∧
    (setPoint3v fmEx pEx2 ⟨5,5,5⟩ 1 0 false).changedVerticesBuffer = true ∧
    (setPoint3v fmEx pEx2 ⟨5,5,5⟩ 1 0 false).changedIndexBuffer = pEx2.changedIndexBuffer ∧
    (setPoint3v fmEx pEx2 ⟨5,5,5⟩ 1 0 false).indexes = pEx2.indexes ∧
    (setPoint3v fmEx pEx2 ⟨5,5,5⟩ 1 0 false).orders = pEx2.orders) :=
  ⟨rfl, by decide, by decide, by decide, by decide,
    claim2_setPoint3v fmEx pEx2 ⟨5,5,5⟩ 1 0 false none rfl (by decide) (by decide)
      (by decide) (by decide)⟩

lemma extFold_swLon (pts : List LonLat) : ∀ e : Extent,
    (extFold e pts).southWest.lon = minFold e.southWest.lon (pts.map (fun p => p.lon)) := by
  induction pts with
  | nil => intro e; rfl
  | cons p rest ih => intro e; simp only [extFold, List.foldl_cons, List.map_cons] at ih ⊢
                      exact ih (extUpd e p)

lemma extFold_swLat (pts : List LonLat) : ∀ e : Extent,
    (extFold e pts).southWest.lat = minFold e.southWest.lat (pts.map (fun p => p.lat)) := by
  induction pts with
  | nil => intro e; rfl
  | cons p rest ih => intro e; simp only [extFold, List.foldl_cons, List.map_cons] at ih ⊢
                      exact ih (extUpd e p)

lemma extFold_neLon (pts : List LonLat) : ∀ e : Extent,
    (extFold e pts).northEast.lon = maxFold e.northEast.lon (pts.map (fun p => p.lon)) := by
  induction pts with
  | nil => intro e; rfl
  | cons p rest ih => intro e; simp only [extFold, List.foldl_cons, List.map_cons] at ih ⊢
                      exact ih (extUpd e p)

lemma extFold_neLat (pts : List LonLat) : ∀ e : Extent,
    (extFold e pts).northEast.lat = maxFold e.northEast.lat (pts.map (fun p => p.lat)) := by
  induction pts with
  | nil => intro e; rfl
  | cons p rest ih => intro e; simp only [extFold, List.foldl_cons, List.map_cons] at ih ⊢
                      exact ih (extUpd e p)

lemma minFold_cases : ∀ (l : List ℤ) (a : ℤ),
    (minFold a l = a ∧ ∀ x ∈ l, a ≤ x) ∨
    (minFold a l ∈ l ∧ (∀ x ∈ l, minFold a l ≤ x) ∧ minFold a l ≤ a)
  | [], a => Or.inl ⟨rfl, by simp⟩
  | x :: t, a => by
    have step : minFold a (x :: t) = minFold (if x < a then x else a) t := rfl
    by_cases hxa : x < a
    · rcases minFold_cases t x with ⟨heq, hle⟩ | ⟨hmem, hle, hax⟩
      · refine Or.inr ⟨?_, ?_, ?_⟩
        · rw [step, if_pos hxa, heq]; exact List.mem_cons_self x t
        · rw [step, if_pos hxa, heq]
          intro y hy
          rcases List.mem_cons.mp hy with rfl | hy
          · exact le_refl y
          · exact hle y hy
        · rw [step, if_pos hxa, heq]; omega
      · refine Or.inr ⟨?_, ?_, ?_⟩
        · rw [step, if_pos hxa]; exact List.mem_cons_of_mem x hmem
        · rw [step, if_pos hxa]
          intro y hy
          rcases List.mem_cons.mp hy with rfl | hy
          · exact hax
          · exact hle y hy
        · rw [step, if_pos hxa]; omega
    · rcases minFold_cases t a with ⟨heq, hle⟩ | ⟨hmem, hle, haa⟩
      · refine Or.inl ⟨?_, ?_⟩
        · rw [step, if_neg hxa, heq]
        · intro y hy
          rcases List.mem_cons.mp hy with rfl | hy
          · omega
          · exact hle y hy
      · refine Or.inr ⟨?_, ?_, ?_⟩
        · rw [step, if_neg hxa]; exact List.mem_cons_of_mem x hmem
        · rw [step, if_neg hxa]
          intro y hy
          rcases List.mem_cons.mp hy with rfl | hy
          · omega
          · exact hle y hy
        · rw [step, if_neg hxa]; exact haa

lemma maxFold_cases : ∀ (l : List ℤ) (a : ℤ),
    (maxFold a l = a ∧ ∀ x ∈ l, x ≤ a) ∨
    (maxFold a l ∈ l ∧ (∀ x ∈ l, x ≤ maxFold a l) ∧ a ≤ maxFold a l)
  | [], a => Or.inl ⟨rfl, by simp⟩
  | x :: t, a => by
    have step : maxFold a (x :: t) = maxFold (if x > a then x else a) t := rfl
    by_cases hxa : x > a
    · rcases maxFold_cases t x with ⟨heq, hle⟩ | ⟨hmem, hle, hax⟩
      · refine Or.inr ⟨?_, ?_, ?_⟩
        · rw [step, if_pos hxa, heq]; exact List.mem_cons_self x t
        · rw [step, if_pos hxa, heq]
          intro y hy
          rcases List.mem_cons.mp hy with rfl | hy
          · exact le_refl y
          · exact hle y hy
        · rw [step, if_pos hxa, heq]; omega
      · refine Or.inr ⟨?_, ?_, ?_⟩
        · rw [step, if_pos hxa]; exact List.mem_cons_of_mem x hmem
        · rw [step, if_pos hxa]
          intro y hy
          rcases List.mem_cons.mp hy with rfl | hy
          · exact hax
          · exact hle y hy
        · rw [step, if_pos hxa]; omega
    · rcases maxFold_cases t a with ⟨heq, hle⟩ | ⟨hmem, hle, haa⟩
      · refine Or.inl ⟨?_, ?_⟩
        · rw [step, if_neg hxa, heq]
        · intro y hy
          rcases List.mem_cons.mp hy with rfl | hy
          · omega
          · exact hle y hy
      · refine Or.inr ⟨?_, ?_, ?_⟩
        · rw [step, if_neg hxa]; exact List.mem_cons_of_mem x hmem
        · rw [step, if_neg hxa]
          intro y hy
          rcases List.mem_cons.mp hy with rfl | hy
          · omega
          · exact hle y hy
        · rw [step, if_neg hxa]; exact haa

lemma minFold_exact (l : List ℤ) (a : ℤ) (hne : l ≠ []) (hub : ∀ x ∈ l, x ≤ a) :
    minFold a l ∈ l ∧ ∀ x ∈ l, minFold a l ≤ x := by
  rcases minFold_cases l a with ⟨heq, hle⟩ | ⟨hmem, hle, _⟩
  · obtain ⟨y, hy⟩ := List.exists_mem_of_ne_nil l hne
    have hya : y = a := le_antisymm (hub y hy) (hle y hy)
    rw [heq]
    exact ⟨hya ▸ hy, fun x hx => hle x hx⟩
  · exact ⟨hmem, hle⟩

lemma maxFold_exact (l : List ℤ) (a : ℤ) (hne : l ≠ []) (hlb : ∀ x ∈ l, a ≤ x) :
    maxFold a l ∈ l ∧ ∀ x ∈ l, x ≤ maxFold a l := by
  rcases maxFold_cases l a with ⟨heq, hle⟩ | ⟨hmem, hle, _⟩
  · obtain ⟨y, hy⟩ := List.exists_mem_of_ne_nil l hne
    have hya : y = a := le_antisymm (hle y hy) (hlb y hy)
    rw [heq]
    exact ⟨hya ▸ hy, fun x hx => hle x hx⟩
  · exact ⟨hmem, hle⟩

lemma extFold_reset_exact (pts : List LonLat) (hne : pts ≠ [])
    (hr : ∀ p ∈ pts, InRange p) : ExtentExact (extFold extentReset pts) pts := by
  have hmne : ∀ f : LonLat → ℤ, pts.map f ≠ [] := by
    intro f h
    exact hne (List.map_eq_nil_iff.mp h)
  unfold ExtentExact IsMinOf IsMaxOf
  have e1 : (extFold extentReset pts).southWest.lon =
      minFold 180 (pts.map (fun p => p.lon)) := by rw [extFold_swLon]; rfl
  have e2 : (extFold extentReset pts).southWest.lat =
      minFold 90 (pts.map (fun p => p.lat)) := by rw [extFold_swLat]; rfl
  have e3 : (extFold extentReset pts).northEast.lon =
      maxFold (-180) (pts.map (fun p => p.lon)) := by rw [extFold_neLon]; rfl
  have e4 : (extFold extentReset pts).northEast.lat =
      maxFold (-90) (pts.map (fun p => p.lat)) := by rw [extFold_neLat]; rfl
  rw [e1, e2, e3, e4]
  refine ⟨?_, ?_, ?_, ?_⟩
  · exact minFold_exact _ _ (hmne _) (by
      intro x hx
      obtain ⟨p, hp, rfl⟩ := List.mem_map.mp hx
      exact (hr p hp).2.1)
  · exact minFold_exact _ _ (hmne _) (by
      intro x hx
      obtain ⟨p, hp, rfl⟩ := List.mem_map.mp hx
      exact (hr p hp).2.2.2)
  · exact maxFold_exact _ _ (hmne _) (by
      intro x hx
      obtain ⟨p, hp, rfl⟩ := List.mem_map.mp hx
      exact (hr p hp).1)
  · exact maxFold_exact _ _ (hmne _) (by
      intro x hx
      obtain ⟨p, hp, rfl⟩ := List.mem_map.mp hx
      exact (hr p hp).2.2.1)

lemma flatten_map {α β : Type} (f : α → β) :
    ∀ L : List (List α), (L.map (List.map f)).flatten = L.flatten.map f
  | [] => rfl
  | l :: ls => by
    simp only [List.map_cons, List.flatten_cons, List.map_append, flatten_map f ls]

/-- Counterexample to claim C4 as stated: a geodetic build whose longitudes
lie outside the canonical range.  For the stored path
`[[(200,0),(210,0)]]` the exact minimum longitude is 200, but the computed
`southWest.lon` is 180 — the accumulator's reset value, never lowered because
no longitude is below 180. -/
theorem claim4_counterexample :
    (appendLineDataLonLat fmEx elEx [[⟨200,0,0⟩, ⟨210,0,0⟩]] false emptyOut).map
        (fun o => (o.pathLonLat, o.extent.southWest.lon)) =
      some ([[⟨200,0,0⟩, ⟨210,0,0⟩]], 180) ∧
    IsMinOf 200 (([[(⟨200,0,0⟩ : LonLat), ⟨210,0,0⟩]] :
      List (List LonLat)).flatten.map (fun p => p.lon)) ∧
    (180 : ℤ) ≠ 200 := by
  refine ⟨by decide, by decide, by decide⟩

/-- Claim C4 as amended: whenever geodetic values are available and every
stored geodetic point lies in the canonical range (lon in [-180,180], lat in
[-90,90] — always true for values produced by `cartesianToLonLat`), the
stored extent is the exact bounding box of all stored geodetic points:
after a geodetic full rebuild, after a Cartesian full rebuild with an
ellipsoid, and after any `setPoint3v` with `forceLonLat` false on an
attached polyline with an ellipsoid. -/
theorem claim4_amended :
    (∀ (fm : LonLat → LonLat) (el : Ellipsoid) (isClosed : Bool)
       (paths : List (List LonLat)),
       ValidShape isClosed (paths.map List.length) →
       paths.flatten ≠ [] →
       (∀ p ∈ paths.flatten, InRange p) →
       ∃ out, appendLineDataLonLat fm el paths isClosed emptyOut = some out ∧
         out.pathLonLat = paths ∧ ExtentExact out.extent paths.flatten) ∧
    (∀ (fm : LonLat → LonLat) (el : Ellipsoid) (isClosed : Bool)
       (paths : List (List Vec3)),
       ValidShape isClosed (paths.map List.length) →
       paths.flatten ≠ [] →
       (∀ q ∈ paths.flatten.map el.cartesianToLonLat, InRange q) →
       ∃ out, appendLineData3v fm (some el) paths isClosed emptyOut = some out ∧
         out.pathLonLat = paths.map (List.map el.cartesianToLonLat) ∧
         ExtentExact out.extent (paths.flatten.map el.cartesianToLonLat)) ∧
    (∀ (fm : LonLat → LonLat) (el : Ellipsoid) (p : Poly) (c : Vec3)
       (index segmentIndex : ℕ),
       p.renderNode = some (some el) →
       (updNested p.pathLonLat segmentIndex index (el.cartesianToLonLat c)).flatten ≠ [] →
       (∀ q ∈ (updNested p.pathLonLat segmentIndex index (el.cartesianToLonLat c)).flatten,
         InRange q) →
       (setPoint3v fm p c index segmentIndex false).pathLonLat =
         updNested p.pathLonLat segmentIndex index (el.cartesianToLonLat c) ∧
       ExtentExact (setPoint3v fm p c index segmentIndex false).extent
         (updNested p.pathLonLat segmentIndex index (el.cartesianToLonLat c)).flatten) := by
  refine ⟨?_, ?_, ?_⟩
  · intro fm el isClosed paths hval hne hr
    refine ⟨_, appendLineDataLonLat_empty fm el isClosed paths hval, rfl, ?_⟩
    exact extFold_reset_exact paths.flatten hne hr
  · intro fm el isClosed paths hval hne hr
    refine ⟨_, appendLineData3v_empty_some fm el isClosed paths hval, rfl, ?_⟩
    refine extFold_reset_exact _ ?_ hr
    intro h
    exact hne (List.map_eq_nil_iff.mp h)
  · intro fm el p c index segmentIndex hrn hne hr
    constructor
    · simp only [setPoint3v, hrn]
    · have hext : (setPoint3v fm p c index segmentIndex false).extent =
        setPointExtentScan (updNested p.pathLonLat segmentIndex index
          (el.cartesianToLonLat c)) := by
        simp only [setPoint3v, hrn]
      rw [hext]
      exact extFold_reset_exact _ hne hr

/-- Instantiation of the geodetic-build part of the amended C4 at a concrete
in-range path. -/
theorem claim4_amended_witness :
    ValidShape false (([[(⟨10,20,0⟩ : LonLat), ⟨-30,5,0⟩]] :
      List (List LonLat)).map List.length) ∧
    ([[(⟨10,20,0⟩ : LonLat), ⟨-30,5,0⟩]] : List (List LonLat)).flatten ≠ [] ∧
    (∀ p ∈ ([[(⟨10,20,0⟩ : LonLat), ⟨-30,5,0⟩]] : List (List LonLat)).flatten, InRange p) ∧
    (∃ out, appendLineDataLonLat fmEx elEx [[⟨10,20,0⟩, ⟨-30,5,0⟩]] false emptyOut = some out ∧
      out.pathLonLat = [[⟨10,20,0⟩, ⟨-30,5,0⟩]] ∧
      ExtentExact out.extent ([[(⟨10,20,0⟩ : LonLat), ⟨-30,5,0⟩]] :
        List (List LonLat)).flatten) :=
  ⟨by decide, by decide, by decide,
    claim4_amended.1 fmEx elEx false [[⟨10,20,0⟩, ⟨-30,5,0⟩]]
      (by decide) (by decide) (by decide)⟩

end Polyline
